import Mathlib

/-!
Shallow embedding of the batch engine of a sharded key-value store client
(`batch.go` of redis-go-cluster): the `Batch` data structure, the routing
and enqueue logic of `Put`, the per-node executor `doBatch`, and the
dispatch / order-reconstruction logic of `RunBatch`.

Modelling conventions:
* A `*redisNode` pointer is identified by a natural number (`Node`);
  pointer equality becomes equality of numbers, and the `nil` pointer is
  `Option.none`.
* Go `interface{}` arguments are modelled as strings (`Arg`), replies as
  naturals (`Reply`), `error` values as strings (`Err`), with `none`
  standing for Go's `nil` error / reply.
* The external collaborators (`getRandomNode`, `getNodeByKey`) are an
  environment record `Env`; the connection behaviour seen by `doBatch`
  (acquisition, flush, the sequence of receives) is a `ConnScript`.
  `conn.send` only buffers bytes and has no observable effect at this
  level, so it is not represented.
* The `done` channel of a `nodeBatch` is modelled by the `doneSignals`
  count of `DoBatchResult`; the fate of the connection (released to the
  pool, shut down, or never acquired) is the `ConnFate` field.
* Go panics (slice index out of range) are modelled by `Option.none`
  results of `runLoop` / `RunBatch`.
* `strings.ToUpper` / `strings.EqualFold` are modelled with
  `String.toUpper` (the commands involved are ASCII).
-/

abbrev Node := Nat
abbrev Arg := String
abbrev Err := String
abbrev Reply := Nat

/-- Field-for-field image of Go's `nodeCommand`: command verb, argument
list, and the reply / error slots filled in by the executor. -/
structure NodeCommand where
  cmd : String
  args : List Arg
  reply : Option Reply
  err : Option Err
deriving Repr, DecidableEq

/-- Image of Go's `nodeBatch`: the target node (`none` = nil pointer),
the queued commands, and the group-level error.  The `done` channel is
modelled on the executor's result instead (see `DoBatchResult`). -/
structure NodeBatch where
  node : Option Node
  cmds : List NodeCommand
  err : Option Err
deriving Repr, DecidableEq

/-- The transaction-related fields of Go's `Cluster` that `batch.go`
reads and writes; the rest of the cluster (topology, pools) is reached
only through the `Env` functions. -/
structure Cluster where
  transactionEnable : Bool
  transactionNode : Option Node
deriving Repr, DecidableEq

/-- Image of Go's `Batch`: the shared cluster context, the node groups,
and the routing index (one entry per successful `Put`). -/
structure Batch where
  cluster : Cluster
  batches : List NodeBatch
  index : List Nat
deriving Repr, DecidableEq

/-- The routing collaborators consumed by `Put`: `getRandomNode` for PING
and `getNodeByKey` for keyed commands. -/
structure Env where
  getRandomNode : Except Err Node
  getNodeByKey : Arg → Except Err Node

/-- Go `cluster.NewBatch()`: empty groups, empty index. -/
def NewBatch (cluster : Cluster) : Batch :=
  { cluster := cluster, batches := [], index := [] }

/-- The scan `for i = 0; i < len(batch.batches); i++ { if batch.batches[i].node == node ... }`
of `Put`: position of the first group whose node pointer equals `node`. -/
def findNodeIdx (node : Option Node) : List NodeBatch → Option Nat
  | [] => none
  | nb :: rest =>
    if nb.node = node then some 0
    else (findNodeIdx node rest).map (· + 1)

/-- `batch.batches[i].cmds = append(batch.batches[i].cmds, c)`: append a
command to the queue of the group at position `i`. -/
def appendCmdAt : List NodeBatch → Nat → NodeCommand → List NodeBatch
  | [], _, _ => []
  | nb :: rest, 0, c => { nb with cmds := nb.cmds ++ [c] } :: rest
  | nb :: rest, i + 1, c => nb :: appendCmdAt rest i c

/-- Lines 96-114 of `batch.go`: scan the groups for one with the resolved
node; append the command there and record the position in `index`, or
create a new group at the end and record its position. -/
def enqueue (batch : Batch) (node : Option Node) (cmd : String) (args : List Arg) : Batch :=
  let c : NodeCommand := { cmd := cmd, args := args, reply := none, err := none }
  match findNodeIdx node batch.batches with
  | some i =>
    { batch with
      batches := appendCmdAt batch.batches i c
      index := batch.index ++ [i] }
  | none =>
    { batch with
      batches := batch.batches ++ [{ node := node, cmds := [c], err := none }]
      index := batch.index ++ [batch.batches.length] }

/-- Model of Go's `strings.ToUpper` (the commands this code compares are
ASCII): uppercase every character of the string. -/
def toUpperStr (s : String) : String := ⟨s.data.map Char.toUpper⟩

/-- Lines 54-94 of `batch.go`: decide the target node of the command and
the updated cluster transaction state, or fail.  Every `return err` in
the Go code happens before any mutation, so the error case carries no
state change. -/
def putRoute (env : Env) (cl : Cluster) (cmd : String) (args : List Arg) :
    Except Err (Cluster × Option Node) :=
  if toUpperStr cmd = "PING" then
    match env.getRandomNode with
    | .error e => .error ("Put PING: " ++ e)
    | .ok n => .ok (cl, some n)
  else if toUpperStr cmd = "MGET" then .error ("Put: " ++ cmd ++ " not supported")
  else if toUpperStr cmd = "MSET" then .error ("Put: " ++ cmd ++ " not supported")
  else if toUpperStr cmd = "MSETNX" then .error ("Put: " ++ cmd ++ " not supported")
  else if toUpperStr cmd = "MULTI" then .ok ({ cl with transactionEnable := true }, none)
  else if toUpperStr cmd = "EXEC" then .ok ({ cl with transactionEnable := false }, none)
  else
    match args with
    | [] => .error "Put: no key found in args"
    | key :: _ =>
      match env.getNodeByKey key with
      | .error e => .error ("Put: " ++ e)
      | .ok n =>
        if cl.transactionEnable then
          if cl.transactionNode = none then
            .ok ({ cl with transactionNode := some n }, some n)
          else if cl.transactionNode ≠ some n then
            .error ("transaction command[" ++ cmd ++ "] key[" ++ key ++
              "] not hashed in the same slot")
          else .ok (cl, some n)
        else .ok (cl, some n)

/-- Go `batch.Put(cmd, args...)`: route, then (on success) run the
enqueue step with the resolved node — which in the Go code runs for
MULTI/EXEC as well, with the `nil` node.  The returned pair is the batch
as left by the call and the returned error. -/
def Put (env : Env) (batch : Batch) (cmd : String) (args : List Arg) : Batch × Option Err :=
  match putRoute env batch.cluster cmd args with
  | .error e => (batch, some e)
  | .ok (cl, node) => (enqueue { batch with cluster := cl } node cmd args, none)

/-- Fold a sequence of `Put` calls over a batch, Go-style: a failing call
leaves the batch as it was and the sequence continues. -/
def buildAll (env : Env) (batch : Batch) : List (String × List Arg) → Batch
  | [] => batch
  | (c, a) :: ps => buildAll env (Put env batch c a).1 ps

/-- Fold a sequence of `Put` calls, also counting the calls that returned
no error. -/
def buildCount (env : Env) (batch : Batch) : List (String × List Arg) → Batch × Nat
  | [] => (batch, 0)
  | (c, a) :: ps =>
    let r := Put env batch c a
    let rec' := buildCount env r.1 ps
    (rec'.1, rec'.2 + (if r.2 = none then 1 else 0))

/-- All `Put` calls in the sequence succeed. -/
def AllOk (env : Env) (batch : Batch) : List (String × List Arg) → Prop
  | [] => True
  | (c, a) :: ps => (Put env batch c a).2 = none ∧ AllOk env (Put env batch c a).1 ps

/-- Number of occurrences of a group position in (part of) the index. -/
def cnt (g : Nat) : List Nat → Nat
  | [] => 0
  | x :: xs => (if x = g then 1 else 0) + cnt g xs

/-- The command slot that the i-th successful `Put` occupies: group
`index[i]`, at the position given by how many earlier index entries named
the same group. -/
def slotOf (b : Batch) (i : Nat) : Option NodeCommand :=
  match b.index[i]? with
  | none => none
  | some g =>
    match b.batches[g]? with
    | none => none
    | some nb => nb.cmds[cnt g (b.index.take i)]?

/-- Behaviour of the connection handed to one `doBatch` run: either the
pool fails to produce a connection, or a connection is acquired with a
given flush outcome and a given outcome for the j-th `receive`. -/
inductive ConnScript where
  | acquireErr : Err → ConnScript
  | acquired : Option Err → (Nat → Except Err Reply) → ConnScript

/-- What finally happens to the connection of one `doBatch` run. -/
inductive ConnFate where
  | notAcquired : ConnFate
  | released : ConnFate
  | shutdown : ConnFate
deriving Repr, DecidableEq

/-- Result of one `doBatch` run: the updated group, how many times the
`done` channel was signalled, and the connection's fate. -/
structure DoBatchResult where
  nb : NodeBatch
  doneSignals : Nat
  fate : ConnFate

/-- The read loop of `doBatch` (lines 163-173): receive one reply per
command in order; on the first failure stop, leaving the remaining
commands untouched.  Returns the updated command list and the error of
the failed receive, if any.  `s` is the absolute position of the first
command in the list. -/
def readReplies (recv : Nat → Except Err Reply) : Nat → List NodeCommand →
    List NodeCommand × Option Err
  | _, [] => ([], none)
  | s, c :: cs =>
    match recv s with
    | .error e => (c :: cs, some e)
    | .ok r =>
      let rest := readReplies recv (s + 1) cs
      ({ c with reply := some r, err := none } :: rest.1, rest.2)

/-- Go `doBatch`: acquire a connection, send and flush all commands, read
the replies back in order; on any failure record the group error, shut
down the connection (if acquired) and signal; on success release the
connection and signal. -/
def doBatch (script : ConnScript) (batch : NodeBatch) : DoBatchResult :=
  match script with
  | .acquireErr e => ⟨{ batch with err := some e }, 1, .notAcquired⟩
  | .acquired flushErr recv =>
    match flushErr with
    | some e => ⟨{ batch with err := some e }, 1, .shutdown⟩
    | none =>
      let res := readReplies recv 0 batch.cmds
      match res.2 with
      | some e => ⟨{ batch with cmds := res.1, err := some e }, 1, .shutdown⟩
      | none => ⟨{ batch with cmds := res.1 }, 1, .released⟩

/-- Run `doBatch` on every group; `scripts g` is the connection behaviour
seen by the group at position `s + g`.  The executors run concurrently in
Go but each touches only its own group, so their joined effect is this
pointwise map. -/
def execGroups (scripts : Nat → ConnScript) : Nat → List NodeBatch → List NodeBatch
  | _, [] => []
  | s, nb :: rest => (doBatch (scripts s) nb).nb :: execGroups scripts (s + 1) rest

/-- Replace the command queue of the group at position `g`
(`bat.batches[i].cmds = bat.batches[i].cmds[1:]` uses this with the tail). -/
def setCmdsAt : List NodeBatch → Nat → List NodeCommand → List NodeBatch
  | [], _, _ => []
  | nb :: rest, 0, cs => { nb with cmds := cs } :: rest
  | nb :: rest, g + 1, cs => nb :: setCmdsAt rest g cs

/-- The reconstruction walk of `RunBatch` (lines 130-140): follow the
index in submission order; abort with the group error if the group named
at this position carries one, otherwise pop the head of its queue and
keep its reply.  A `none` result models the Go panic on an out-of-range
group position or an empty queue. -/
def runLoop : List NodeBatch → List Nat → Option (Except Err (List (Option Reply)))
  | _, [] => some (.ok [])
  | bs, g :: rest =>
    match bs[g]? with
    | none => none
    | some nb =>
      match nb.err with
      | some e => some (.error e)
      | none =>
        match nb.cmds with
        | [] => none
        | c :: cs =>
          match runLoop (setCmdsAt bs g cs) rest with
          | none => none
          | some (.error e) => some (.error e)
          | some (.ok tl) => some (.ok (c.reply :: tl))

/-- Go `cluster.RunBatch(bat)`: run one executor per group, join, then
walk the index reconstructing replies in submission order. -/
def RunBatch (scripts : Nat → ConnScript) (bat : Batch) :
    Option (Except Err (List (Option Reply))) :=
  runLoop (execGroups scripts 0 bat.batches) bat.index

/-- Set the reply of the command at absolute position `s + j` to `f (s + j)`
(the image of a fully successful read loop). -/
def fillFrom (f : Nat → Reply) : Nat → List NodeCommand → List NodeCommand
  | _, [] => []
  | s, c :: cs => { c with reply := some (f s), err := none } :: fillFrom f (s + 1) cs

/-- Invariant relating a batch built by `Put` calls to the list `subs` of
the `(cmd, args)` pairs submitted by the successful calls, in order:
the index has one entry per successful call, every entry points into the
group list, each group holds exactly as many commands as the index names
it, no group carries an error, group nodes are pairwise distinct, and the
slot reachable by the head-pop walk at position `i` holds exactly the
i-th submitted command. -/
structure BatchInv (b : Batch) (subs : List (String × List Arg)) : Prop where
  hlen : b.index.length = subs.length
  hrange : ∀ g ∈ b.index, g < b.batches.length
  hcount : ∀ g nb, b.batches[g]? = some nb → nb.cmds.length = cnt g b.index
  herr : ∀ nb ∈ b.batches, nb.err = none
  hnodes : (b.batches.map NodeBatch.node).Nodup
  hslot : ∀ i p, subs[i]? = some p → ∃ g c, b.index[i]? = some g ∧
    slotOf b i = some c ∧ c.cmd = p.1 ∧ c.args = p.2

/-! Concrete inputs used to exercise the theorems below: a router sending
each key to the node given by the key's length, and small batches built
from it. -/

def envW : Env := ⟨.ok 9, fun k => .ok k.length⟩

def clW : Cluster := ⟨false, none⟩

def psW : List (String × List Arg) :=
  [("SET", ["a", "1"]), ("SET", ["bb", "2"]), ("GET", ["c"]),
   ("GET", ["d"]), ("GET", ["ee"])]

def fW : Nat → Nat → Reply := fun g j => 10 * g + j

def batW5 : Batch :=
  { cluster := clW
    batches :=
      [{ node := some 1
         cmds := [{ cmd := "SET", args := ["a", "1"], reply := none, err := none },
                  { cmd := "GET", args := ["c"], reply := none, err := none }]
         err := none },
       { node := some 2
         cmds := [{ cmd := "SET", args := ["bb", "2"], reply := none, err := none }]
         err := none }]
    index := [0, 1, 0] }

def scriptsW5 : Nat → ConnScript := fun g =>
  if g = 0 then .acquired (some "flush failed") (fun j => .ok j)
  else .acquired none (fun j => .ok j)

def nbW8 : NodeBatch :=
  { node := some 1
    cmds := [{ cmd := "GET", args := ["a"], reply := none, err := none },
             { cmd := "GET", args := ["b"], reply := none, err := none },
             { cmd := "GET", args := ["c"], reply := none, err := none }]
    err := none }

def recvW8 : Nat → Except Err Reply := fun j =>
  if j < 1 then .ok j else .error "read failed"

def bW3a : Batch := { cluster := ⟨true, none⟩, batches := [], index := [] }

def bW3b : Batch := { cluster := ⟨true, some 2⟩, batches := [], index := [] }

def bW10 : Batch := { cluster := ⟨true, some 1⟩, batches := [], index := [] }

/-! ### Basic lemmas about the list helpers -/

theorem findNodeIdx_some_lt {node : Option Node} :
    ∀ {bs : List NodeBatch} {i : Nat}, findNodeIdx node bs = some i → i < bs.length := by
  intro bs
  induction bs with
  | nil => intro i h; simp [findNodeIdx] at h
  | cons nb rest ih =>
    intro i h
    simp only [findNodeIdx] at h
    by_cases hn : nb.node = node
    · rw [if_pos hn] at h
      cases h
      simp
    · rw [if_neg hn] at h
      cases hr : findNodeIdx node rest with
      | none => rw [hr] at h; simp at h
      | some j =>
        rw [hr] at h
        simp only [Option.map_some'] at h
        cases h
        have := ih hr
        simpa using Nat.succ_lt_succ this

theorem findNodeIdx_none_mem {node : Option Node} :
    ∀ {bs : List NodeBatch}, findNodeIdx node bs = none →
      ∀ nb ∈ bs, nb.node ≠ node := by
  intro bs
  induction bs with
  | nil => intro _ nb h; simp at h
  | cons hd rest ih =>
    intro h nb hmem
    simp only [findNodeIdx] at h
    by_cases hn : hd.node = node
    · rw [if_pos hn] at h; simp at h
    · rw [if_neg hn] at h
      rcases List.mem_cons.mp hmem with rfl | hmem'
      · exact hn
      · cases hr : findNodeIdx node rest with
        | none => exact ih hr nb hmem'
        | some j => rw [hr] at h; simp at h

theorem appendCmdAt_length (c : NodeCommand) :
    ∀ (bs : List NodeBatch) (i : Nat), (appendCmdAt bs i c).length = bs.length := by
  intro bs
  induction bs with
  | nil => intro i; rfl
  | cons nb rest ih =>
    intro i
    cases i with
    | zero => simp [appendCmdAt]
    | succ j => simp [appendCmdAt, ih]

theorem appendCmdAt_getElem_ne (c : NodeCommand) :
    ∀ (bs : List NodeBatch) (i g : Nat), g ≠ i →
      (appendCmdAt bs i c)[g]? = bs[g]? := by
  intro bs
  induction bs with
  | nil => intro i g _; rfl
  | cons nb rest ih =>
    intro i g hne
    cases i with
    | zero =>
      cases g with
      | zero => exact absurd rfl hne
      | succ g' => simp [appendCmdAt]
    | succ j =>
      cases g with
      | zero => simp [appendCmdAt]
      | succ g' =>
        simp only [appendCmdAt, List.getElem?_cons_succ]
        exact ih j g' (fun h => hne (by rw [h]))

theorem appendCmdAt_getElem_eq (c : NodeCommand) :
    ∀ (bs : List NodeBatch) (i : Nat) (nb : NodeBatch), bs[i]? = some nb →
      (appendCmdAt bs i c)[i]? = some { nb with cmds := nb.cmds ++ [c] } := by
  intro bs
  induction bs with
  | nil => intro i nb h; simp at h
  | cons hd rest ih =>
    intro i nb h
    cases i with
    | zero =>
      simp only [List.getElem?_cons_zero, Option.some.injEq] at h
      subst h
      simp [appendCmdAt]
    | succ j =>
      simp only [List.getElem?_cons_succ] at h
      simp only [appendCmdAt, List.getElem?_cons_succ]
      exact ih j nb h

theorem appendCmdAt_map_node (c : NodeCommand) :
    ∀ (bs : List NodeBatch) (i : Nat),
      (appendCmdAt bs i c).map NodeBatch.node = bs.map NodeBatch.node := by
  intro bs
  induction bs with
  | nil => intro i; rfl
  | cons nb rest ih =>
    intro i
    cases i with
    | zero => simp [appendCmdAt]
    | succ j => simp [appendCmdAt, ih]

theorem setCmdsAt_length (cs : List NodeCommand) :
    ∀ (bs : List NodeBatch) (g : Nat), (setCmdsAt bs g cs).length = bs.length := by
  intro bs
  induction bs with
  | nil => intro g; rfl
  | cons nb rest ih =>
    intro g
    cases g with
    | zero => simp [setCmdsAt]
    | succ j => simp [setCmdsAt, ih]

theorem setCmdsAt_getElem_ne (cs : List NodeCommand) :
    ∀ (bs : List NodeBatch) (g i : Nat), i ≠ g →
      (setCmdsAt bs g cs)[i]? = bs[i]? := by
  intro bs
  induction bs with
  | nil => intro g i _; rfl
  | cons nb rest ih =>
    intro g i hne
    cases g with
    | zero =>
      cases i with
      | zero => exact absurd rfl hne
      | succ i' => simp [setCmdsAt]
    | succ j =>
      cases i with
      | zero => simp [setCmdsAt]
      | succ i' =>
        simp only [setCmdsAt, List.getElem?_cons_succ]
        exact ih j i' (fun h => hne (by rw [h]))

theorem setCmdsAt_getElem_eq (cs : List NodeCommand) :
    ∀ (bs : List NodeBatch) (g : Nat) (nb : NodeBatch), bs[g]? = some nb →
      (setCmdsAt bs g cs)[g]? = some { nb with cmds := cs } := by
  intro bs
  induction bs with
  | nil => intro g nb h; simp at h
  | cons hd rest ih =>
    intro g nb h
    cases g with
    | zero =>
      simp only [List.getElem?_cons_zero, Option.some.injEq] at h
      subst h
      simp [setCmdsAt]
    | succ j =>
      simp only [List.getElem?_cons_succ] at h
      simp only [setCmdsAt, List.getElem?_cons_succ]
      exact ih j nb h

theorem cnt_append (g : Nat) : ∀ (l l' : List Nat), cnt g (l ++ l') = cnt g l + cnt g l' := by
  intro l l'
  induction l with
  | nil => simp [cnt]
  | cons x xs ih => simp [cnt, ih]; omega

theorem cnt_eq_zero (g : Nat) : ∀ {l : List Nat}, (∀ x ∈ l, x ≠ g) → cnt g l = 0 := by
  intro l
  induction l with
  | nil => intro _; rfl
  | cons x xs ih =>
    intro h
    simp only [cnt]
    rw [if_neg (h x (List.mem_cons_self x xs)), ih (fun y hy => h y (List.mem_cons_of_mem x hy))]

/-! ### Lemmas about the executor -/

theorem readReplies_allOk (f : Nat → Reply) :
    ∀ (cmds : List NodeCommand) (s : Nat),
      readReplies (fun j => Except.ok (f j)) s cmds = (fillFrom f s cmds, none) := by
  intro cmds
  induction cmds with
  | nil => intro s; rfl
  | cons c cs ih => intro s; simp [readReplies, fillFrom, ih]

theorem fillFrom_length (f : Nat → Reply) :
    ∀ (cmds : List NodeCommand) (s : Nat), (fillFrom f s cmds).length = cmds.length := by
  intro cmds
  induction cmds with
  | nil => intro s; rfl
  | cons c cs ih => intro s; simp [fillFrom, ih]

theorem fillFrom_getElem (f : Nat → Reply) :
    ∀ (cmds : List NodeCommand) (s k : Nat),
      (fillFrom f s cmds)[k]? =
        (cmds[k]?).map (fun c => { c with reply := some (f (s + k)), err := none }) := by
  intro cmds
  induction cmds with
  | nil => intro s k; rfl
  | cons c cs ih =>
    intro s k
    cases k with
    | zero => simp [fillFrom]
    | succ k' =>
      simp only [fillFrom, List.getElem?_cons_succ, ih (s + 1) k']
      rw [show s + 1 + k' = s + (k' + 1) from by omega]

theorem readReplies_none_iff (recv : Nat → Except Err Reply) :
    ∀ (cmds : List NodeCommand) (s : Nat),
      (readReplies recv s cmds).2 = none ↔
        ∀ i, i < cmds.length → ∃ r, recv (s + i) = .ok r := by
  intro cmds
  induction cmds with
  | nil => intro s; simp [readReplies]
  | cons c cs ih =>
    intro s
    cases h : recv s with
    | error e =>
      simp only [readReplies, h]
      constructor
      · intro hfalse; simp at hfalse
      · intro hall
        rcases hall 0 (by simp) with ⟨r, hr⟩
        rw [Nat.add_zero] at hr
        rw [h] at hr
        simp at hr
    | ok r =>
      simp only [readReplies, h]
      rw [ih (s + 1)]
      constructor
      · intro hall i hi
        cases i with
        | zero => exact ⟨r, by simpa using h⟩
        | succ i' =>
          rcases hall i' (by simpa using Nat.lt_of_succ_lt_succ hi) with ⟨r', hr'⟩
          exact ⟨r', by rw [show s + (i' + 1) = s + 1 + i' by omega]; exact hr'⟩
      · intro hall i hi
        rcases hall (i + 1) (by simpa using Nat.succ_lt_succ hi) with ⟨r', hr'⟩
        exact ⟨r', by rw [show s + 1 + i = s + (i + 1) by omega]; exact hr'⟩

theorem readReplies_fst_length (recv : Nat → Except Err Reply) :
    ∀ (cmds : List NodeCommand) (s : Nat),
      (readReplies recv s cmds).1.length = cmds.length := by
  intro cmds
  induction cmds with
  | nil => intro s; rfl
  | cons c cs ih =>
    intro s
    simp only [readReplies]
    cases recv s with
    | error e => simp
    | ok r => simp [ih]

theorem readReplies_err_spec (recv : Nat → Except Err Reply) (e : Err) :
    ∀ (cmds : List NodeCommand) (s k : Nat), k < cmds.length →
      (∀ i, i < k → ∃ r, recv (s + i) = .ok r) →
      recv (s + k) = .error e →
      (readReplies recv s cmds).2 = some e ∧
      (∀ j, k ≤ j → (readReplies recv s cmds).1[j]? = cmds[j]?) ∧
      (∀ j, j < k → ∀ c, cmds[j]? = some c → ∃ r, recv (s + j) = .ok r ∧
        (readReplies recv s cmds).1[j]? = some { c with reply := some r, err := none }) := by
  intro cmds
  induction cmds with
  | nil => intro s k hk; simp at hk
  | cons c cs ih =>
    intro s k hk hbefore hat
    cases k with
    | zero =>
      rw [Nat.add_zero] at hat
      refine ⟨?_, ?_, ?_⟩
      · simp [readReplies, hat]
      · intro j _; simp [readReplies, hat]
      · intro j hj; omega
    | succ k' =>
      rcases hbefore 0 (Nat.succ_pos k') with ⟨r, hr⟩
      rw [Nat.add_zero] at hr
      simp only [readReplies, hr]
      have hat' : recv (s + 1 + k') = .error e := by
        rw [show s + 1 + k' = s + (k' + 1) by omega]; exact hat
      have hbefore' : ∀ i, i < k' → ∃ r', recv (s + 1 + i) = .ok r' := by
        intro i hi
        rcases hbefore (i + 1) (Nat.succ_lt_succ hi) with ⟨r', hr'⟩
        exact ⟨r', by rw [show s + 1 + i = s + (i + 1) by omega]; exact hr'⟩
      rcases ih (s + 1) k' (Nat.lt_of_succ_lt_succ hk) hbefore' hat' with ⟨h1, h2, h3⟩
      refine ⟨h1, ?_, ?_⟩
      · intro j hj
        cases j with
        | zero => omega
        | succ j' =>
          simp only [List.getElem?_cons_succ]
          exact h2 j' (Nat.le_of_succ_le_succ hj)
      · intro j hj c' hc'
        cases j with
        | zero =>
          simp only [List.getElem?_cons_zero, Option.some.injEq] at hc'
          subst hc'
          exact ⟨r, by rw [Nat.add_zero]; exact hr, by simp⟩
        | succ j' =>
          simp only [List.getElem?_cons_succ] at hc'
          rcases h3 j' (Nat.lt_of_succ_lt_succ hj) c' hc' with ⟨r', hr', hg⟩
          refine ⟨r', ?_, ?_⟩
          · rw [show s + (j' + 1) = s + 1 + j' by omega]; exact hr'
          · simpa using hg

theorem doBatch_allOk (f : Nat → Reply) (nb : NodeBatch) :
    doBatch (.acquired none (fun j => Except.ok (f j))) nb =
      ⟨{ nb with cmds := fillFrom f 0 nb.cmds }, 1, .released⟩ := by
  simp [doBatch, readReplies_allOk]

theorem execGroups_length (scripts : Nat → ConnScript) :
    ∀ (bs : List NodeBatch) (s : Nat), (execGroups scripts s bs).length = bs.length := by
  intro bs
  induction bs with
  | nil => intro s; rfl
  | cons nb rest ih => intro s; simp [execGroups, ih]

theorem execGroups_getElem (scripts : Nat → ConnScript) :
    ∀ (bs : List NodeBatch) (s g : Nat),
      (execGroups scripts s bs)[g]? =
        (bs[g]?).map (fun nb => (doBatch (scripts (s + g)) nb).nb) := by
  intro bs
  induction bs with
  | nil => intro s g; rfl
  | cons nb rest ih =>
    intro s g
    cases g with
    | zero => simp [execGroups]
    | succ g' =>
      simp only [execGroups, List.getElem?_cons_succ, ih (s + 1) g']
      rw [show s + 1 + g' = s + (g' + 1) from by omega]

/-! ### The Put invariant -/

theorem slotOf_eq (b : Batch) (i g : Nat) (nb : NodeBatch)
    (h1 : b.index[i]? = some g) (h2 : b.batches[g]? = some nb) :
    slotOf b i = nb.cmds[cnt g (b.index.take i)]? := by
  simp [slotOf, h1, h2]

theorem inv_enqueue (b : Batch) (node : Option Node) (cmd : String) (args : List Arg)
    (subs : List (String × List Arg)) (hinv : BatchInv b subs) :
    BatchInv (enqueue b node cmd args) (subs ++ [(cmd, args)]) := by
  obtain ⟨hlen, hrange, hcount, herr, hnodes, hslot⟩ := hinv
  cases hfind : findNodeIdx node b.batches with
  | some i =>
    have hi : i < b.batches.length := findNodeIdx_some_lt hfind
    have hnbi : b.batches[i]? = some b.batches[i] := List.getElem?_eq_getElem hi
    have henq : enqueue b node cmd args =
        { b with
          batches := appendCmdAt b.batches i ⟨cmd, args, none, none⟩
          index := b.index ++ [i] } := by
      simp [enqueue, hfind]
    rw [henq]
    refine ⟨?_, ?_, ?_, ?_, ?_, ?_⟩
    · simp [List.length_append, hlen]
    · intro g hg
      show g < (appendCmdAt b.batches i ⟨cmd, args, none, none⟩).length
      rw [appendCmdAt_length]
      rcases List.mem_append.mp hg with h | h
      · exact hrange g h
      · simp only [List.mem_singleton] at h; subst h; exact hi
    · intro g nb hnb
      by_cases hgi : g = i
      · subst hgi
        have hx := Option.some.inj ((appendCmdAt_getElem_eq _ _ _ _ hnbi).symm.trans hnb)
        rw [← hx]
        simp [cnt_append, cnt, hcount g (b.batches[g]) hnbi]
      · rw [appendCmdAt_getElem_ne _ _ _ _ hgi] at hnb
        have hig : i ≠ g := fun h => hgi h.symm
        rw [cnt_append]
        have h0 : cnt g [i] = 0 := by simp [cnt, hig]
        rw [h0, Nat.add_zero]
        exact hcount g nb hnb
    · intro nb hmem
      rcases List.mem_iff_getElem?.mp hmem with ⟨g, hg⟩
      by_cases hgi : g = i
      · subst hgi
        have hx := Option.some.inj ((appendCmdAt_getElem_eq _ _ _ _ hnbi).symm.trans hg)
        rw [← hx]
        exact herr (b.batches[g]) (List.mem_iff_getElem?.mpr ⟨g, hnbi⟩)
      · rw [appendCmdAt_getElem_ne _ _ _ _ hgi] at hg
        exact herr nb (List.mem_iff_getElem?.mpr ⟨g, hg⟩)
    · show ((appendCmdAt b.batches i ⟨cmd, args, none, none⟩).map NodeBatch.node).Nodup
      rw [appendCmdAt_map_node]
      exact hnodes
    · intro i0 p hp
      have hi0 : i0 < subs.length + 1 := by
        have := (List.getElem?_eq_some.mp hp).1
        simpa using this
      by_cases hlt : i0 < subs.length
      · rw [List.getElem?_append_left hlt] at hp
        obtain ⟨g, c0, hg, hs0, hcmd, hargs⟩ := hslot i0 p hp
        have hgrange : g < b.batches.length := hrange g (List.mem_iff_getElem?.mpr ⟨i0, hg⟩)
        have hidx : (b.index ++ [i])[i0]? = some g := by
          rw [List.getElem?_append_left (by rw [hlen]; exact hlt)]
          exact hg
        obtain ⟨nbg, hbg⟩ : ∃ nb, b.batches[g]? = some nb :=
          ⟨b.batches[g], List.getElem?_eq_getElem hgrange⟩
        rw [slotOf_eq b i0 g nbg hg hbg] at hs0
        have htake : (b.index ++ [i]).take i0 = b.index.take i0 :=
          List.take_append_of_le_length (by rw [hlen]; omega)
        refine ⟨g, c0, hidx, ?_, hcmd, hargs⟩
        by_cases hgi : g = i
        · subst hgi
          rw [slotOf_eq _ i0 g { nbg with cmds := nbg.cmds ++ [⟨cmd, args, none, none⟩] }
            hidx (appendCmdAt_getElem_eq _ _ _ _ hbg)]
          show (nbg.cmds ++ [(⟨cmd, args, none, none⟩ : NodeCommand)])[cnt g ((b.index ++ [g]).take i0)]? = some c0
          rw [htake]
          have hklt : cnt g (b.index.take i0) < nbg.cmds.length := (List.getElem?_eq_some.mp hs0).1
          rw [List.getElem?_append_left hklt]
          exact hs0
        · rw [slotOf_eq _ i0 g nbg hidx
            (by rw [show ({ b with
                batches := appendCmdAt b.batches i ⟨cmd, args, none, none⟩,
                index := b.index ++ [i] } : Batch).batches =
              appendCmdAt b.batches i ⟨cmd, args, none, none⟩ from rfl,
              appendCmdAt_getElem_ne _ _ _ _ hgi]; exact hbg)]
          show nbg.cmds[cnt g ((b.index ++ [i]).take i0)]? = some c0
          rw [htake]
          exact hs0
      · have hi0e : i0 = subs.length := by omega
        subst hi0e
        rw [List.getElem?_concat_length] at hp
        obtain rfl : p = (cmd, args) := (Option.some.inj hp).symm
        have hidx : (b.index ++ [i])[subs.length]? = some i := by
          rw [← hlen]
          exact List.getElem?_concat_length _ _
        refine ⟨i, ⟨cmd, args, none, none⟩, hidx, ?_, rfl, rfl⟩
        rw [slotOf_eq _ subs.length i
          { b.batches[i] with cmds := b.batches[i].cmds ++ [⟨cmd, args, none, none⟩] }
          hidx (appendCmdAt_getElem_eq _ _ _ _ hnbi)]
        show (b.batches[i].cmds ++ [(⟨cmd, args, none, none⟩ : NodeCommand)])[cnt i ((b.index ++ [i]).take subs.length)]? = some _
        rw [← hlen, List.take_append_of_le_length (Nat.le_refl _), List.take_length]
        rw [← hcount i (b.batches[i]) hnbi]
        exact List.getElem?_concat_length _ _
  | none =>
    have henq : enqueue b node cmd args =
        { b with
          batches := b.batches ++ [⟨node, [⟨cmd, args, none, none⟩], none⟩]
          index := b.index ++ [b.batches.length] } := by
      simp [enqueue, hfind]
    rw [henq]
    refine ⟨?_, ?_, ?_, ?_, ?_, ?_⟩
    · simp [List.length_append, hlen]
    · intro g hg
      show g < (b.batches ++ [(⟨node, [⟨cmd, args, none, none⟩], none⟩ : NodeBatch)]).length
      rw [List.length_append]
      rcases List.mem_append.mp hg with h | h
      · have := hrange g h; omega
      · simp only [List.mem_singleton] at h; subst h; simp
    · intro g nb hnb
      have hglen : g < b.batches.length + 1 := by
        have := (List.getElem?_eq_some.mp hnb).1
        simpa using this
      by_cases hg : g < b.batches.length
      · rw [List.getElem?_append_left hg] at hnb
        have hne : b.batches.length ≠ g := by omega
        rw [cnt_append]
        have h0 : cnt g [b.batches.length] = 0 := by simp [cnt, hne]
        rw [h0, Nat.add_zero]
        exact hcount g nb hnb
      · have hge : g = b.batches.length := by omega
        subst hge
        rw [List.getElem?_concat_length] at hnb
        obtain rfl : nb = ⟨node, [⟨cmd, args, none, none⟩], none⟩ := (Option.some.inj hnb).symm
        have h0 : cnt b.batches.length b.index = 0 :=
          cnt_eq_zero _ (fun x hx => by have := hrange x hx; omega)
        rw [cnt_append, h0]
        simp [cnt]
    · intro nb hmem
      rcases List.mem_append.mp hmem with h | h
      · exact herr nb h
      · simp only [List.mem_singleton] at h; subst h; rfl
    · show ((b.batches ++ [(⟨node, [⟨cmd, args, none, none⟩], none⟩ : NodeBatch)]).map NodeBatch.node).Nodup
      have hnotmem : node ∉ b.batches.map NodeBatch.node := by
        intro hmem
        rcases List.mem_map.mp hmem with ⟨nb, hnb, heq⟩
        exact findNodeIdx_none_mem hfind nb hnb heq
      simp only [List.map_append, List.map_cons, List.map_nil]
      rw [← List.concat_eq_append]
      exact List.Nodup.concat hnotmem hnodes
    · intro i0 p hp
      have hi0 : i0 < subs.length + 1 := by
        have := (List.getElem?_eq_some.mp hp).1
        simpa using this
      by_cases hlt : i0 < subs.length
      · rw [List.getElem?_append_left hlt] at hp
        obtain ⟨g, c0, hg, hs0, hcmd, hargs⟩ := hslot i0 p hp
        have hgrange : g < b.batches.length := hrange g (List.mem_iff_getElem?.mpr ⟨i0, hg⟩)
        have hidx : (b.index ++ [b.batches.length])[i0]? = some g := by
          rw [List.getElem?_append_left (by rw [hlen]; exact hlt)]
          exact hg
        obtain ⟨nbg, hbg⟩ : ∃ nb, b.batches[g]? = some nb :=
          ⟨b.batches[g], List.getElem?_eq_getElem hgrange⟩
        rw [slotOf_eq b i0 g nbg hg hbg] at hs0
        refine ⟨g, c0, hidx, ?_, hcmd, hargs⟩
        rw [slotOf_eq _ i0 g nbg hidx
          (by rw [show ({ b with
              batches := b.batches ++ [⟨node, [⟨cmd, args, none, none⟩], none⟩],
              index := b.index ++ [b.batches.length] } : Batch).batches =
            b.batches ++ [⟨node, [⟨cmd, args, none, none⟩], none⟩] from rfl,
            List.getElem?_append_left hgrange]; exact hbg)]
        show nbg.cmds[cnt g ((b.index ++ [b.batches.length]).take i0)]? = some c0
        rw [List.take_append_of_le_length (by rw [hlen]; omega)]
        exact hs0
      · have hi0e : i0 = subs.length := by omega
        subst hi0e
        rw [List.getElem?_concat_length] at hp
        obtain rfl : p = (cmd, args) := (Option.some.inj hp).symm
        have hidx : (b.index ++ [b.batches.length])[subs.length]? = some b.batches.length := by
          rw [← hlen]
          exact List.getElem?_concat_length _ _
        refine ⟨b.batches.length, ⟨cmd, args, none, none⟩, hidx, ?_, rfl, rfl⟩
        rw [slotOf_eq _ subs.length b.batches.length ⟨node, [⟨cmd, args, none, none⟩], none⟩
          hidx (List.getElem?_concat_length _ _)]
        show ([(⟨cmd, args, none, none⟩ : NodeCommand)])[cnt b.batches.length ((b.index ++ [b.batches.length]).take subs.length)]? = some _
        rw [← hlen, List.take_append_of_le_length (Nat.le_refl _), List.take_length]
        rw [cnt_eq_zero _ (fun x hx => by have := hrange x hx; omega)]
        rfl

theorem batchInv_cluster (b : Batch) (cl : Cluster) (subs : List (String × List Arg))
    (h : BatchInv b subs) : BatchInv { b with cluster := cl } subs := by
  obtain ⟨h1, h2, h3, h4, h5, h6⟩ := h
  exact ⟨h1, h2, h3, h4, h5, h6⟩

theorem Put_err_frame (env : Env) (b : Batch) (cmd : String) (args : List Arg)
    (h : (Put env b cmd args).2 ≠ none) : (Put env b cmd args).1 = b := by
  cases hpr : putRoute env b.cluster cmd args with
  | error e => simp [Put, hpr]
  | ok p =>
    obtain ⟨cl, nd⟩ := p
    exfalso
    apply h
    simp [Put, hpr]

theorem Put_ok_inv (env : Env) (b : Batch) (cmd : String) (args : List Arg)
    (subs : List (String × List Arg)) (hok : (Put env b cmd args).2 = none)
    (hinv : BatchInv b subs) : BatchInv (Put env b cmd args).1 (subs ++ [(cmd, args)]) := by
  cases hpr : putRoute env b.cluster cmd args with
  | error e => simp [Put, hpr] at hok
  | ok p =>
    obtain ⟨cl, nd⟩ := p
    have hPut : (Put env b cmd args).1 = enqueue { b with cluster := cl } nd cmd args := by
      simp [Put, hpr]
    rw [hPut]
    exact inv_enqueue _ _ _ _ _ (batchInv_cluster b cl subs hinv)

theorem batchInv_NewBatch (cl : Cluster) : BatchInv (NewBatch cl) [] := by
  refine ⟨rfl, ?_, ?_, ?_, ?_, ?_⟩
  · intro g hg; simp [NewBatch] at hg
  · intro g nb hnb; simp [NewBatch] at hnb
  · intro nb h; simp [NewBatch] at h
  · simp [NewBatch]
  · intro i p hp; simp at hp

theorem inv_buildAll (env : Env) : ∀ (ps : List (String × List Arg)) (b : Batch)
    (subs : List (String × List Arg)), BatchInv b subs → AllOk env b ps →
    BatchInv (buildAll env b ps) (subs ++ ps) := by
  intro ps
  induction ps with
  | nil => intro b subs hinv _; simpa using hinv
  | cons p ps ih =>
    intro b subs hinv hok
    obtain ⟨c, a⟩ := p
    obtain ⟨hok1, hok2⟩ := hok
    have h1 := Put_ok_inv env b c a subs hok1 hinv
    have h2 := ih (Put env b c a).1 (subs ++ [(c, a)]) h1 hok2
    have hb : buildAll env b ((c, a) :: ps) = buildAll env (Put env b c a).1 ps := rfl
    rw [hb]
    have hs : (subs ++ [(c, a)]) ++ ps = subs ++ ((c, a) :: ps) := by
      rw [List.append_assoc, List.singleton_append]
    rw [← hs]
    exact h2

theorem inv_buildCount (env : Env) : ∀ (ps : List (String × List Arg)) (b : Batch)
    (subs : List (String × List Arg)), BatchInv b subs →
    ∃ subs', subs'.length = subs.length + (buildCount env b ps).2 ∧
      BatchInv (buildCount env b ps).1 subs' := by
  intro ps
  induction ps with
  | nil => intro b subs hinv; exact ⟨subs, by simp [buildCount], hinv⟩
  | cons p ps ih =>
    intro b subs hinv
    obtain ⟨c, a⟩ := p
    have hfst : (buildCount env b ((c, a) :: ps)).1 = (buildCount env (Put env b c a).1 ps).1 := by
      simp [buildCount]
    by_cases hok : (Put env b c a).2 = none
    · have h1 := Put_ok_inv env b c a subs hok hinv
      obtain ⟨subs', hl, hi2⟩ := ih (Put env b c a).1 (subs ++ [(c, a)]) h1
      refine ⟨subs', ?_, ?_⟩
      · have hsnd : (buildCount env b ((c, a) :: ps)).2 =
            (buildCount env (Put env b c a).1 ps).2 + 1 := by
          simp [buildCount, hok]
        rw [hsnd]
        simp only [List.length_append, List.length_cons, List.length_nil] at hl
        omega
      · rw [hfst]; exact hi2
    · have hfr : (Put env b c a).1 = b := Put_err_frame env b c a hok
      obtain ⟨subs', hl, hi2⟩ := ih (Put env b c a).1 subs (by rw [hfr]; exact hinv)
      refine ⟨subs', ?_, ?_⟩
      · have hsnd : (buildCount env b ((c, a) :: ps)).2 =
            (buildCount env (Put env b c a).1 ps).2 := by
          simp [buildCount, hok]
        rw [hsnd]; omega
      · rw [hfst]; exact hi2

theorem enqueue_cluster (b : Batch) (node : Option Node) (cmd : String) (args : List Arg) :
    (enqueue b node cmd args).cluster = b.cluster := by
  cases h : findNodeIdx node b.batches <;> simp [enqueue, h]

theorem enqueue_map_node (b : Batch) (node : Option Node) (cmd : String) (args : List Arg) :
    (enqueue b node cmd args).batches.map NodeBatch.node = b.batches.map NodeBatch.node ∨
    (enqueue b node cmd args).batches.map NodeBatch.node =
      b.batches.map NodeBatch.node ++ [node] := by
  cases h : findNodeIdx node b.batches with
  | some i => left; simp [enqueue, h, appendCmdAt_map_node]
  | none => right; simp [enqueue, h]

theorem Put_map_node (env : Env) (b : Batch) (cmd : String) (args : List Arg) :
    ∃ t, (Put env b cmd args).1.batches.map NodeBatch.node =
      b.batches.map NodeBatch.node ++ t := by
  cases hpr : putRoute env b.cluster cmd args with
  | error e => exact ⟨[], by simp [Put, hpr]⟩
  | ok p =>
    obtain ⟨cl, nd⟩ := p
    have hPut : (Put env b cmd args).1 = enqueue { b with cluster := cl } nd cmd args := by
      simp [Put, hpr]
    rcases enqueue_map_node { b with cluster := cl } nd cmd args with h | h
    · exact ⟨[], by rw [hPut, h]; simp⟩
    · exact ⟨[nd], by rw [hPut, h]⟩

theorem buildCount_fst_append (env : Env) : ∀ (l1 l2 : List (String × List Arg)) (b : Batch),
    (buildCount env b (l1 ++ l2)).1 = (buildCount env (buildCount env b l1).1 l2).1 := by
  intro l1
  induction l1 with
  | nil => intro l2 b; simp [buildCount]
  | cons p l1 ih =>
    intro l2 b
    obtain ⟨c, a⟩ := p
    have h1 : (buildCount env b (((c, a) :: l1) ++ l2)).1 =
        (buildCount env (Put env b c a).1 (l1 ++ l2)).1 := by
      simp [buildCount]
    have h2 : (buildCount env b ((c, a) :: l1)).1 = (buildCount env (Put env b c a).1 l1).1 := by
      simp [buildCount]
    rw [h1, h2]
    exact ih l2 (Put env b c a).1

theorem buildCount_map_node (env : Env) : ∀ (ps : List (String × List Arg)) (b : Batch),
    ∃ t, (buildCount env b ps).1.batches.map NodeBatch.node =
      b.batches.map NodeBatch.node ++ t := by
  intro ps
  induction ps with
  | nil => intro b; exact ⟨[], by simp [buildCount]⟩
  | cons p ps ih =>
    intro b
    obtain ⟨c, a⟩ := p
    obtain ⟨t1, h1⟩ := Put_map_node env b c a
    obtain ⟨t2, h2⟩ := ih (Put env b c a).1
    refine ⟨t1 ++ t2, ?_⟩
    have hfst : (buildCount env b ((c, a) :: ps)).1 = (buildCount env (Put env b c a).1 ps).1 := by
      simp [buildCount]
    rw [hfst, h2, h1, List.append_assoc]

/-! ### The reconstruction walk -/

theorem runLoop_ok_spec : ∀ (idx : List Nat) (bs : List NodeBatch),
    (∀ g ∈ idx, ∃ nb, bs[g]? = some nb ∧ nb.err = none ∧ cnt g idx ≤ nb.cmds.length) →
    ∃ r, runLoop bs idx = some (.ok r) ∧ r.length = idx.length ∧
      ∀ i g, idx[i]? = some g → ∃ nb c, bs[g]? = some nb ∧
        nb.cmds[cnt g (idx.take i)]? = some c ∧ r[i]? = some c.reply := by
  intro idx
  induction idx with
  | nil =>
    intro bs _
    exact ⟨[], rfl, rfl, by intro i g h; simp at h⟩
  | cons g0 rest ih =>
    intro bs hgood
    obtain ⟨nb0, hnb0, herr0, hcnt0⟩ := hgood g0 (List.mem_cons_self g0 rest)
    have hcnt0' : 1 + cnt g0 rest ≤ nb0.cmds.length := by
      have h : cnt g0 (g0 :: rest) = 1 + cnt g0 rest := by simp [cnt]
      rw [h] at hcnt0
      exact hcnt0
    obtain ⟨c0, cs0, hcmds⟩ : ∃ c cs, nb0.cmds = c :: cs := by
      cases hx : nb0.cmds with
      | nil => rw [hx] at hcnt0'; simp at hcnt0'
      | cons c cs => exact ⟨c, cs, rfl⟩
    have hgood' : ∀ g ∈ rest, ∃ nb, (setCmdsAt bs g0 cs0)[g]? = some nb ∧ nb.err = none ∧
        cnt g rest ≤ nb.cmds.length := by
      intro g hg
      by_cases hgg : g = g0
      · subst hgg
        refine ⟨{ nb0 with cmds := cs0 }, setCmdsAt_getElem_eq _ _ _ _ hnb0, herr0, ?_⟩
        rw [hcmds] at hcnt0'
        simp only [List.length_cons] at hcnt0'
        simp only
        omega
      · obtain ⟨nb, hnb, he, hc⟩ := hgood g (List.mem_cons_of_mem _ hg)
        refine ⟨nb, by rw [setCmdsAt_getElem_ne _ _ _ _ hgg]; exact hnb, he, ?_⟩
        have hgg' : ¬ g0 = g := fun h => hgg h.symm
        have h : cnt g (g0 :: rest) = cnt g rest := by
          simp [cnt, hgg']
        rw [h] at hc
        exact hc
    obtain ⟨r, hr, hrl, hri⟩ := ih (setCmdsAt bs g0 cs0) hgood'
    refine ⟨c0.reply :: r, ?_, ?_, ?_⟩
    · simp only [runLoop, hnb0, herr0, hcmds, hr]
    · simp [hrl]
    · intro i g hig
      cases i with
      | zero =>
        simp only [List.getElem?_cons_zero] at hig
        obtain rfl : g0 = g := Option.some.inj hig
        refine ⟨nb0, c0, hnb0, ?_, by simp⟩
        simp [cnt, hcmds]
      | succ i' =>
        simp only [List.getElem?_cons_succ] at hig
        obtain ⟨nb, c, hnb, hc, hr'⟩ := hri i' g hig
        by_cases hgg : g = g0
        · subst hgg
          rw [setCmdsAt_getElem_eq _ _ _ _ hnb0] at hnb
          obtain rfl : { nb0 with cmds := cs0 } = nb := Option.some.inj hnb
          refine ⟨nb0, c, hnb0, ?_, by rw [List.getElem?_cons_succ]; exact hr'⟩
          have ht : (g :: rest).take (i' + 1) = g :: rest.take i' := rfl
          rw [ht]
          have hcg : cnt g (g :: rest.take i') = 1 + cnt g (rest.take i') := by simp [cnt]
          rw [hcg, hcmds, Nat.add_comm, List.getElem?_cons_succ]
          exact hc
        · refine ⟨nb, c, by rw [setCmdsAt_getElem_ne _ _ _ _ hgg] at hnb; exact hnb, ?_,
            by rw [List.getElem?_cons_succ]; exact hr'⟩
          have ht : (g0 :: rest).take (i' + 1) = g0 :: rest.take i' := rfl
          rw [ht]
          have hgg' : ¬ g0 = g := fun h => hgg h.symm
          have hcg : cnt g (g0 :: rest.take i') = cnt g (rest.take i') := by
            simp [cnt, hgg']
          rw [hcg]
          exact hc

theorem runLoop_err_spec : ∀ (idx : List Nat) (bs : List NodeBatch) (k : Nat) (e : Err),
    k < idx.length →
    (∀ j, j < k → ∃ g nb, idx[j]? = some g ∧ bs[g]? = some nb ∧ nb.err = none) →
    (∃ g nb, idx[k]? = some g ∧ bs[g]? = some nb ∧ nb.err = some e) →
    (∀ g ∈ idx, ∃ nb, bs[g]? = some nb ∧ cnt g idx ≤ nb.cmds.length) →
    runLoop bs idx = some (.error e) := by
  intro idx
  induction idx with
  | nil => intro bs k e hk _ _ _; simp at hk
  | cons g0 rest ih =>
    intro bs k e hk hbefore hat hcnt
    cases k with
    | zero =>
      obtain ⟨g, nb, hg, hnb, he⟩ := hat
      simp only [List.getElem?_cons_zero] at hg
      obtain rfl : g0 = g := Option.some.inj hg
      simp only [runLoop, hnb, he]
    | succ k' =>
      obtain ⟨g, nb, hg, hnb, he⟩ := hbefore 0 (Nat.succ_pos k')
      simp only [List.getElem?_cons_zero] at hg
      obtain rfl : g0 = g := Option.some.inj hg
      obtain ⟨nb2, hnb2, hc2⟩ := hcnt g0 (List.mem_cons_self _ _)
      rw [hnb] at hnb2
      obtain rfl : nb = nb2 := Option.some.inj hnb2
      have hc2' : 1 + cnt g0 rest ≤ nb.cmds.length := by
        have h : cnt g0 (g0 :: rest) = 1 + cnt g0 rest := by simp [cnt]
        rw [h] at hc2
        exact hc2
      obtain ⟨c0, cs0, hcmds⟩ : ∃ c cs, nb.cmds = c :: cs := by
        cases hx : nb.cmds with
        | nil => rw [hx] at hc2'; simp at hc2'
        | cons c cs => exact ⟨c, cs, rfl⟩
      have hbefore' : ∀ j, j < k' → ∃ g' nb', rest[j]? = some g' ∧
          (setCmdsAt bs g0 cs0)[g']? = some nb' ∧ nb'.err = none := by
        intro j hj
        obtain ⟨g', nbj, hgj, hnbj, hej⟩ := hbefore (j + 1) (Nat.succ_lt_succ hj)
        simp only [List.getElem?_cons_succ] at hgj
        by_cases hgg : g' = g0
        · subst hgg
          rw [hnb] at hnbj
          obtain rfl : nb = nbj := Option.some.inj hnbj
          exact ⟨g', { nb with cmds := cs0 }, hgj, setCmdsAt_getElem_eq _ _ _ _ hnb, hej⟩
        · exact ⟨g', nbj, hgj, by rw [setCmdsAt_getElem_ne _ _ _ _ hgg]; exact hnbj, hej⟩
      have hat' : ∃ g' nb', rest[k']? = some g' ∧ (setCmdsAt bs g0 cs0)[g']? = some nb' ∧
          nb'.err = some e := by
        obtain ⟨g', nbk, hgk, hnbk, hek⟩ := hat
        simp only [List.getElem?_cons_succ] at hgk
        by_cases hgg : g' = g0
        · subst hgg
          rw [hnb] at hnbk
          obtain rfl : nb = nbk := Option.some.inj hnbk
          rw [he] at hek
          simp at hek
        · exact ⟨g', nbk, hgk, by rw [setCmdsAt_getElem_ne _ _ _ _ hgg]; exact hnbk, hek⟩
      have hcnt' : ∀ g' ∈ rest, ∃ nb', (setCmdsAt bs g0 cs0)[g']? = some nb' ∧
          cnt g' rest ≤ nb'.cmds.length := by
        intro g' hg'
        by_cases hgg : g' = g0
        · subst hgg
          refine ⟨{ nb with cmds := cs0 }, setCmdsAt_getElem_eq _ _ _ _ hnb, ?_⟩
          rw [hcmds] at hc2'
          simp only [List.length_cons] at hc2'
          simp only
          omega
        · obtain ⟨nb', hnb', hc'⟩ := hcnt g' (List.mem_cons_of_mem _ hg')
          refine ⟨nb', by rw [setCmdsAt_getElem_ne _ _ _ _ hgg]; exact hnb', ?_⟩
          have hgg' : ¬ g0 = g' := fun h => hgg h.symm
          have h : cnt g' (g0 :: rest) = cnt g' rest := by
            simp [cnt, hgg']
          rw [h] at hc'
          exact hc'
      have hrec := ih (setCmdsAt bs g0 cs0) k' e (Nat.lt_of_succ_lt_succ hk) hbefore' hat' hcnt'
      simp only [runLoop, hnb, he, hcmds, hrec]

/-! ### Branch lemmas for putRoute -/

theorem putRoute_multi (env : Env) (cl : Cluster) (args : List Arg) :
    putRoute env cl "MULTI" args = .ok ({ cl with transactionEnable := true }, none) := rfl

theorem putRoute_exec (env : Env) (cl : Cluster) (args : List Arg) :
    putRoute env cl "EXEC" args = .ok ({ cl with transactionEnable := false }, none) := rfl

theorem putRoute_multikey (env : Env) (cl : Cluster) (cmd : String) (args : List Arg)
    (h : toUpperStr cmd = "MGET" ∨ toUpperStr cmd = "MSET" ∨ toUpperStr cmd = "MSETNX") :
    putRoute env cl cmd args = .error ("Put: " ++ cmd ++ " not supported") := by
  simp only [putRoute]
  rcases h with h | h | h <;> rw [h] <;> rfl

theorem putRoute_nokey (env : Env) (cl : Cluster) (cmd : String)
    (h1 : toUpperStr cmd ≠ "PING") (h2 : toUpperStr cmd ≠ "MGET") (h3 : toUpperStr cmd ≠ "MSET")
    (h4 : toUpperStr cmd ≠ "MSETNX") (h5 : toUpperStr cmd ≠ "MULTI") (h6 : toUpperStr cmd ≠ "EXEC") :
    putRoute env cl cmd [] = .error "Put: no key found in args" := by
  simp only [putRoute, if_neg h1, if_neg h2, if_neg h3, if_neg h4, if_neg h5, if_neg h6]

theorem putRoute_keyed_ok (env : Env) (cl : Cluster) (cmd : String) (key : Arg)
    (rest : List Arg) (n : Node)
    (h1 : toUpperStr cmd ≠ "PING") (h2 : toUpperStr cmd ≠ "MGET") (h3 : toUpperStr cmd ≠ "MSET")
    (h4 : toUpperStr cmd ≠ "MSETNX") (h5 : toUpperStr cmd ≠ "MULTI") (h6 : toUpperStr cmd ≠ "EXEC")
    (hroute : env.getNodeByKey key = .ok n) :
    putRoute env cl cmd (key :: rest) =
      if cl.transactionEnable then
        if cl.transactionNode = none then
          .ok ({ cl with transactionNode := some n }, some n)
        else if cl.transactionNode ≠ some n then
          .error ("transaction command[" ++ cmd ++ "] key[" ++ key ++
            "] not hashed in the same slot")
        else .ok (cl, some n)
      else .ok (cl, some n) := by
  simp only [putRoute, if_neg h1, if_neg h2, if_neg h3, if_neg h4, if_neg h5, if_neg h6, hroute]

theorem Put_error_eq (env : Env) (bb : Batch) (cmd : String) (args : List Arg) (e : Err)
    (h : putRoute env bb.cluster cmd args = .error e) :
    Put env bb cmd args = (bb, some e) := by
  simp [Put, h]

theorem Put_ok_eq (env : Env) (bb : Batch) (cmd : String) (args : List Arg)
    (cl : Cluster) (nd : Option Node)
    (h : putRoute env bb.cluster cmd args = .ok (cl, nd)) :
    Put env bb cmd args = (enqueue { bb with cluster := cl } nd cmd args, none) := by
  simp [Put, h]

/-! ### Claim theorems -/

/-- C2: for every batch, calling `Put` with MGET, MSET or MSETNX (any
arguments), or with a keyed command (none of the special verbs) and an
empty argument list, returns an error and leaves the batch unchanged:
in particular the number of groups and the length of the index are the
same before and after the call. -/
theorem put_rejects_multikey_and_keyless (env : Env) (b : Batch) (cmd : String)
    (args : List Arg)
    (h : (toUpperStr cmd = "MGET" ∨ toUpperStr cmd = "MSET" ∨ toUpperStr cmd = "MSETNX") ∨
      (toUpperStr cmd ≠ "PING" ∧ toUpperStr cmd ≠ "MGET" ∧ toUpperStr cmd ≠ "MSET" ∧
       toUpperStr cmd ≠ "MSETNX" ∧ toUpperStr cmd ≠ "MULTI" ∧ toUpperStr cmd ≠ "EXEC" ∧
       args = [])) :
    (Put env b cmd args).2.isSome = true ∧ (Put env b cmd args).1 = b ∧
    (Put env b cmd args).1.batches.length = b.batches.length ∧
    (Put env b cmd args).1.index.length = b.index.length := by
  rcases h with h | ⟨h1, h2, h3, h4, h5, h6, rfl⟩
  · have he := putRoute_multikey env b.cluster cmd args h
    exact ⟨by simp [Put, he], by simp [Put, he], by simp [Put, he], by simp [Put, he]⟩
  · have he := putRoute_nokey env b.cluster cmd h1 h2 h3 h4 h5 h6
    exact ⟨by simp [Put, he], by simp [Put, he], by simp [Put, he], by simp [Put, he]⟩

theorem put_rejects_multikey_and_keyless_witness :
    ((Put envW (NewBatch clW) "MGET" ["a", "b"]).2.isSome = true ∧
     (Put envW (NewBatch clW) "MGET" ["a", "b"]).1 = NewBatch clW ∧
     (Put envW (NewBatch clW) "MGET" ["a", "b"]).1.batches.length =
       (NewBatch clW).batches.length ∧
     (Put envW (NewBatch clW) "MGET" ["a", "b"]).1.index.length =
       (NewBatch clW).index.length) ∧
    ((Put envW (NewBatch clW) "HSET" []).2.isSome = true ∧
     (Put envW (NewBatch clW) "HSET" []).1 = NewBatch clW ∧
     (Put envW (NewBatch clW) "HSET" []).1.batches.length = (NewBatch clW).batches.length ∧
     (Put envW (NewBatch clW) "HSET" []).1.index.length = (NewBatch clW).index.length) :=
  ⟨put_rejects_multikey_and_keyless envW (NewBatch clW) "MGET" ["a", "b"]
      (Or.inl (Or.inl (by decide))),
   put_rejects_multikey_and_keyless envW (NewBatch clW) "HSET" []
      (Or.inr ⟨by decide, by decide, by decide, by decide, by decide, by decide, rfl⟩)⟩

/-- C3: with transaction mode active, a keyed `Put` pins the transaction
node when none is pinned yet (and succeeds), and a keyed `Put` that
resolves to a node different from the pinned one fails with the same-slot
violation error, enqueues nothing and leaves the batch — including the
pinned node — exactly as it was. -/
theorem put_transaction_same_slot (env : Env) (b : Batch) (cmd : String) (key : Arg)
    (rest : List Arg) (n : Node)
    (h1 : toUpperStr cmd ≠ "PING") (h2 : toUpperStr cmd ≠ "MGET")
    (h3 : toUpperStr cmd ≠ "MSET") (h4 : toUpperStr cmd ≠ "MSETNX")
    (h5 : toUpperStr cmd ≠ "MULTI") (h6 : toUpperStr cmd ≠ "EXEC")
    (hroute : env.getNodeByKey key = .ok n)
    (htx : b.cluster.transactionEnable = true) :
    (b.cluster.transactionNode = none →
      (Put env b cmd (key :: rest)).2 = none ∧
      (Put env b cmd (key :: rest)).1.cluster.transactionNode = some n) ∧
    (∀ m, b.cluster.transactionNode = some m → m ≠ n →
      (Put env b cmd (key :: rest)).2.isSome = true ∧
      (Put env b cmd (key :: rest)).1 = b) := by
  have hpr := putRoute_keyed_ok env b.cluster cmd key rest n h1 h2 h3 h4 h5 h6 hroute
  constructor
  · intro hnone
    rw [if_pos htx, if_pos hnone] at hpr
    constructor
    · simp [Put, hpr]
    · rw [show (Put env b cmd (key :: rest)).1 =
          enqueue { b with cluster := { b.cluster with transactionNode := some n } }
            (some n) cmd (key :: rest) from by simp [Put, hpr],
        enqueue_cluster]
  · intro m hm hmn
    have hnn : ¬ b.cluster.transactionNode = none := by rw [hm]; simp
    have hne : b.cluster.transactionNode ≠ some n := by
      rw [hm]
      intro hcon
      exact hmn (Option.some.inj hcon)
    rw [if_pos htx, if_neg hnn, if_pos hne] at hpr
    exact ⟨by simp [Put, hpr], by simp [Put, hpr]⟩

theorem put_transaction_same_slot_witness :
    ((Put envW bW3a "SET" ["a", "v"]).2 = none ∧
     (Put envW bW3a "SET" ["a", "v"]).1.cluster.transactionNode = some 1) ∧
    ((Put envW bW3b "SET" ["a", "v"]).2.isSome = true ∧
     (Put envW bW3b "SET" ["a", "v"]).1 = bW3b) :=
  ⟨(put_transaction_same_slot envW bW3a "SET" "a" ["v"] 1 (by decide) (by decide) (by decide)
      (by decide) (by decide) (by decide) rfl rfl).1 rfl,
   (put_transaction_same_slot envW bW3b "SET" "a" ["v"] 1 (by decide) (by decide) (by decide)
      (by decide) (by decide) (by decide) rfl rfl).2 2 rfl (by decide)⟩

/-- C4 (behaviour of the code at the claimed input): `Put` with MULTI on
a fresh batch flips the transaction flag and returns no error, but does
not leave the groups and index unchanged: the enqueue step of lines
96-114 runs with the nil node, so a new group with node `none` holding
the MULTI command is created and `0` is appended to the index.  EXEC
behaves the same way. -/
theorem put_multi_exec_enqueues_nil_node_group :
    (Put envW (NewBatch clW) "MULTI" []).2 = none ∧
    (Put envW (NewBatch clW) "MULTI" []).1.cluster.transactionEnable = true ∧
    (Put envW (NewBatch clW) "MULTI" []).1.batches =
      [{ node := none,
         cmds := [{ cmd := "MULTI", args := [], reply := none, err := none }],
         err := none }] ∧
    (Put envW (NewBatch clW) "MULTI" []).1.index = [0] ∧
    (Put envW (NewBatch clW) "EXEC" []).1.batches.length = 1 ∧
    (Put envW (NewBatch clW) "EXEC" []).1.index = [0] :=
  ⟨rfl, rfl, rfl, rfl, rfl, rfl⟩

/-- C7: `doBatch` signals its done channel exactly once on every exit
path: connection-acquisition failure, flush failure, any read failure,
and full success. -/
theorem doBatch_signals_done_once (script : ConnScript) (batch : NodeBatch) :
    (doBatch script batch).doneSignals = 1 := by
  cases script with
  | acquireErr e => rfl
  | acquired flushErr recv =>
    cases flushErr with
    | some e => rfl
    | none =>
      cases h : (readReplies recv 0 batch.cmds).2 with
      | none => simp [doBatch, h]
      | some e => simp [doBatch, h]

/-- C10: `Put` EXEC clears the cluster transaction-active flag but leaves
the pinned transaction node untouched (nothing in the code ever resets
it); a following MULTI re-enables transactions with the stale pin still
in place, so a keyed command that resolves to a different node then fails
the same-slot check without changing the batch. -/
theorem exec_keeps_transaction_node_pinned (env : Env) (b : Batch) (cmd : String)
    (key : Arg) (nA nB : Node)
    (h1 : toUpperStr cmd ≠ "PING") (h2 : toUpperStr cmd ≠ "MGET")
    (h3 : toUpperStr cmd ≠ "MSET") (h4 : toUpperStr cmd ≠ "MSETNX")
    (h5 : toUpperStr cmd ≠ "MULTI") (h6 : toUpperStr cmd ≠ "EXEC")
    (hpin : b.cluster.transactionNode = some nA)
    (hroute : env.getNodeByKey key = .ok nB)
    (hne : nB ≠ nA) :
    (Put env b "EXEC" []).1.cluster.transactionEnable = false ∧
    (Put env b "EXEC" []).1.cluster.transactionNode = some nA ∧
    (Put env (Put env b "EXEC" []).1 "MULTI" []).1.cluster.transactionEnable = true ∧
    (Put env (Put env b "EXEC" []).1 "MULTI" []).1.cluster.transactionNode = some nA ∧
    (Put env (Put env (Put env b "EXEC" []).1 "MULTI" []).1 cmd [key]).2.isSome = true ∧
    (Put env (Put env (Put env b "EXEC" []).1 "MULTI" []).1 cmd [key]).1 =
      (Put env (Put env b "EXEC" []).1 "MULTI" []).1 := by
  have hexec1 : (Put env b "EXEC" []).1.cluster =
      { b.cluster with transactionEnable := false } := by
    rw [show (Put env b "EXEC" []).1 =
        enqueue { b with cluster := { b.cluster with transactionEnable := false } }
          none "EXEC" [] from by simp [Put, putRoute_exec],
      enqueue_cluster]
  have hmulti1 : (Put env (Put env b "EXEC" []).1 "MULTI" []).1.cluster =
      { (Put env b "EXEC" []).1.cluster with transactionEnable := true } := by
    rw [show (Put env (Put env b "EXEC" []).1 "MULTI" []).1 =
        enqueue { (Put env b "EXEC" []).1 with
            cluster := { (Put env b "EXEC" []).1.cluster with transactionEnable := true } }
          none "MULTI" [] from by simp [Put, putRoute_multi],
      enqueue_cluster]
  have he1 : (Put env b "EXEC" []).1.cluster.transactionEnable = false := by rw [hexec1]
  have he2 : (Put env b "EXEC" []).1.cluster.transactionNode = some nA := by
    rw [hexec1]; exact hpin
  have hm1 : (Put env (Put env b "EXEC" []).1 "MULTI" []).1.cluster.transactionEnable = true := by
    rw [hmulti1]
  have hm2 : (Put env (Put env b "EXEC" []).1 "MULTI" []).1.cluster.transactionNode = some nA := by
    rw [hmulti1]; exact he2
  have hpr := putRoute_keyed_ok env
    (Put env (Put env b "EXEC" []).1 "MULTI" []).1.cluster cmd key [] nB
    h1 h2 h3 h4 h5 h6 hroute
  rw [if_pos hm1, if_neg (by rw [hm2]; simp),
    if_pos (by rw [hm2]; intro hcon; exact hne (Option.some.inj hcon).symm)] at hpr
  have hput := Put_error_eq env (Put env (Put env b "EXEC" []).1 "MULTI" []).1 cmd [key] _ hpr
  exact ⟨he1, he2, hm1, hm2, by rw [hput]; rfl, by rw [hput]⟩

theorem exec_keeps_transaction_node_pinned_witness :
    (Put envW bW10 "EXEC" []).1.cluster.transactionEnable = false ∧
    (Put envW bW10 "EXEC" []).1.cluster.transactionNode = some 1 ∧
    (Put envW (Put envW bW10 "EXEC" []).1 "MULTI" []).1.cluster.transactionEnable = true ∧
    (Put envW (Put envW bW10 "EXEC" []).1 "MULTI" []).1.cluster.transactionNode = some 1 ∧
    (Put envW (Put envW (Put envW bW10 "EXEC" []).1 "MULTI" []).1 "GET" ["bb"]).2.isSome = true ∧
    (Put envW (Put envW (Put envW bW10 "EXEC" []).1 "MULTI" []).1 "GET" ["bb"]).1 =
      (Put envW (Put envW bW10 "EXEC" []).1 "MULTI" []).1 :=
  exec_keeps_transaction_node_pinned envW bW10 "GET" "bb" 1 2 (by decide) (by decide)
    (by decide) (by decide) (by decide) (by decide) rfl rfl (by decide)

/-- C6: the connection of a `doBatch` run is released back to the pool
exactly when it was acquired, the flush succeeded and every reply read
succeeded; whenever a connection was acquired and the flush or any read
failed, the connection is shut down — never released. -/
theorem doBatch_connection_fate (script : ConnScript) (batch : NodeBatch) :
    ((doBatch script batch).fate = ConnFate.released ↔
      ∃ recv, script = ConnScript.acquired none recv ∧
        ∀ i, i < batch.cmds.length → ∃ r, recv i = .ok r) ∧
    (∀ flushErr recv, script = ConnScript.acquired flushErr recv →
      (doBatch script batch).fate = ConnFate.released ∨
      (doBatch script batch).fate = ConnFate.shutdown) := by
  constructor
  · cases script with
    | acquireErr e => simp [doBatch]
    | acquired flushErr recv =>
      cases flushErr with
      | some e => simp [doBatch]
      | none =>
        cases h : (readReplies recv 0 batch.cmds).2 with
        | some e =>
          constructor
          · intro hf
            simp [doBatch, h] at hf
          · rintro ⟨recv', hs, hall⟩
            injection hs with hflush hrecv
            subst hrecv
            have hall' : ∀ i, i < batch.cmds.length → ∃ r, recv (0 + i) = .ok r := by
              intro i hi
              simpa using hall i hi
            have hnone := (readReplies_none_iff recv batch.cmds 0).mpr hall'
            rw [h] at hnone
            simp at hnone
        | none =>
          constructor
          · intro _
            refine ⟨recv, rfl, ?_⟩
            have := (readReplies_none_iff recv batch.cmds 0).mp h
            intro i hi
            simpa using this i hi
          · intro _
            simp [doBatch, h]
  · intro flushErr recv hs
    subst hs
    cases flushErr with
    | some e => right; rfl
    | none =>
      cases h : (readReplies recv 0 batch.cmds).2 with
      | some e => right; simp [doBatch, h]
      | none => left; simp [doBatch, h]

/-- C8: when the k-th reply read fails (all earlier reads succeed), the
group-level error is set to the read error, the commands from position k
on keep their reply and err fields unset, and the commands before k keep
the replies already assigned to them. -/
theorem doBatch_read_failure_frame (recv : Nat → Except Err Reply) (batch : NodeBatch)
    (k : Nat) (e : Err)
    (hk : k < batch.cmds.length)
    (hclean : ∀ c ∈ batch.cmds, c.reply = none ∧ c.err = none)
    (hbefore : ∀ i, i < k → ∃ r, recv i = .ok r)
    (hat : recv k = .error e) :
    (doBatch (ConnScript.acquired none recv) batch).nb.err = some e ∧
    (doBatch (ConnScript.acquired none recv) batch).nb.cmds.length = batch.cmds.length ∧
    (∀ j, k ≤ j → ∀ c,
      (doBatch (ConnScript.acquired none recv) batch).nb.cmds[j]? = some c →
      c.reply = none ∧ c.err = none) ∧
    (∀ j, j < k → ∃ c r, batch.cmds[j]? = some c ∧ recv j = .ok r ∧
      (doBatch (ConnScript.acquired none recv) batch).nb.cmds[j]? =
        some { c with reply := some r, err := none }) := by
  have hb : ∀ i, i < k → ∃ r, recv (0 + i) = .ok r := by
    intro i hi
    simpa using hbefore i hi
  have ha : recv (0 + k) = .error e := by simpa using hat
  obtain ⟨h1, h2, h3⟩ := readReplies_err_spec recv e batch.cmds 0 k hk hb ha
  have hd : doBatch (ConnScript.acquired none recv) batch =
      ⟨{ batch with cmds := (readReplies recv 0 batch.cmds).1, err := some e }, 1,
        ConnFate.shutdown⟩ := by
    simp [doBatch, h1]
  rw [hd]
  refine ⟨rfl, readReplies_fst_length recv batch.cmds 0, ?_, ?_⟩
  · intro j hj c hc
    rw [show ((⟨{ batch with cmds := (readReplies recv 0 batch.cmds).1, err := some e }, 1,
        ConnFate.shutdown⟩ : DoBatchResult)).nb.cmds = (readReplies recv 0 batch.cmds).1
      from rfl] at hc
    rw [h2 j hj] at hc
    exact hclean c (List.mem_iff_getElem?.mpr ⟨j, hc⟩)
  · intro j hj
    obtain ⟨cj, hcj⟩ : ∃ c, batch.cmds[j]? = some c :=
      ⟨batch.cmds[j], List.getElem?_eq_getElem (by omega)⟩
    obtain ⟨r, hr, hg⟩ := h3 j hj cj hcj
    exact ⟨cj, r, hcj, by simpa using hr, hg⟩

theorem doBatch_read_failure_frame_witness :
    (doBatch (ConnScript.acquired none recvW8) nbW8).nb.err = some "read failed" ∧
    (doBatch (ConnScript.acquired none recvW8) nbW8).nb.cmds.length = nbW8.cmds.length ∧
    (∀ j, 1 ≤ j → ∀ c,
      (doBatch (ConnScript.acquired none recvW8) nbW8).nb.cmds[j]? = some c →
      c.reply = none ∧ c.err = none) ∧
    (∀ j, j < 1 → ∃ c r, nbW8.cmds[j]? = some c ∧ recvW8 j = .ok r ∧
      (doBatch (ConnScript.acquired none recvW8) nbW8).nb.cmds[j]? =
        some { c with reply := some r, err := none }) :=
  doBatch_read_failure_frame recvW8 nbW8 1 "read failed" (by decide)
    (by intro c hc; fin_cases hc <;> exact ⟨rfl, rfl⟩)
    (by intro i hi
        refine ⟨i, ?_⟩
        have : i = 0 := by omega
        subst this
        rfl)
    rfl

/-- C5: if, after all executors have completed, some group reached by the
index walk carries a group-level error, `RunBatch` returns the error of
the first failing group in submission order (position `k` of the index is
the first to name a failing group), and no reply list — the `Except.error`
result carries no replies, matching Go's `return nil, err`. -/
theorem runBatch_returns_first_error (scripts : Nat → ConnScript) (bat : Batch)
    (k : Nat) (e : Err)
    (hk : k < bat.index.length)
    (hbefore : ∀ j, j < k → ∃ g nb, bat.index[j]? = some g ∧
      (execGroups scripts 0 bat.batches)[g]? = some nb ∧ nb.err = none)
    (hat : ∃ g nb, bat.index[k]? = some g ∧
      (execGroups scripts 0 bat.batches)[g]? = some nb ∧ nb.err = some e)
    (hcnt : ∀ g ∈ bat.index, ∃ nb, (execGroups scripts 0 bat.batches)[g]? = some nb ∧
      cnt g bat.index ≤ nb.cmds.length) :
    RunBatch scripts bat = some (.error e) :=
  runLoop_err_spec bat.index (execGroups scripts 0 bat.batches) k e hk hbefore hat hcnt

theorem runBatch_returns_first_error_witness :
    0 < batW5.index.length ∧ RunBatch scriptsW5 batW5 = some (.error "flush failed") := by
  have h2 : ∀ j, j < 0 → ∃ g nb, batW5.index[j]? = some g ∧
      (execGroups scriptsW5 0 batW5.batches)[g]? = some nb ∧ nb.err = none := by
    intro j hj
    omega
  have h3 : ∃ g nb, batW5.index[0]? = some g ∧
      (execGroups scriptsW5 0 batW5.batches)[g]? = some nb ∧ nb.err = some "flush failed" := by
    exact ⟨0, ⟨some 1, [⟨"SET", ["a", "1"], none, none⟩, ⟨"GET", ["c"], none, none⟩],
      some "flush failed"⟩, rfl, rfl, rfl⟩
  have h4 : ∀ g ∈ batW5.index, ∃ nb, (execGroups scriptsW5 0 batW5.batches)[g]? = some nb ∧
      cnt g batW5.index ≤ nb.cmds.length := by
    intro g hg
    simp [batW5] at hg
    rcases hg with rfl | rfl | rfl
    · exact ⟨⟨some 1, [⟨"SET", ["a", "1"], none, none⟩, ⟨"GET", ["c"], none, none⟩],
        some "flush failed"⟩, rfl, by decide⟩
    · exact ⟨⟨some 2, [⟨"SET", ["bb", "2"], some 0, none⟩], none⟩, rfl, by decide⟩
    · exact ⟨⟨some 1, [⟨"SET", ["a", "1"], none, none⟩, ⟨"GET", ["c"], none, none⟩],
        some "flush failed"⟩, rfl, by decide⟩
  exact ⟨by decide,
    runBatch_returns_first_error scriptsW5 batW5 0 "flush failed" (by decide) h2 h3 h4⟩

/-- C9: after any sequence of `Put` calls on a fresh batch, the index has
exactly one entry per call that returned no error, every index entry is a
valid position into the group list, the group nodes are pairwise
distinct, and the node list after any stage of the sequence is an initial
segment of the final node list — groups are only ever appended, in
first-touch order. -/
theorem put_batch_invariants (env : Env) (cl : Cluster) (ps : List (String × List Arg)) :
    (buildCount env (NewBatch cl) ps).1.index.length = (buildCount env (NewBatch cl) ps).2 ∧
    (∀ g ∈ (buildCount env (NewBatch cl) ps).1.index,
      g < (buildCount env (NewBatch cl) ps).1.batches.length) ∧
    ((buildCount env (NewBatch cl) ps).1.batches.map NodeBatch.node).Nodup ∧
    (∀ k, ∃ t,
      (buildCount env (NewBatch cl) (ps.take k)).1.batches.map NodeBatch.node ++ t =
      (buildCount env (NewBatch cl) ps).1.batches.map NodeBatch.node) := by
  obtain ⟨subs, hl, hinv⟩ := inv_buildCount env ps (NewBatch cl) [] (batchInv_NewBatch cl)
  obtain ⟨hlen, hrange, hcount, herr, hnodes, hslot⟩ := hinv
  refine ⟨?_, hrange, hnodes, ?_⟩
  · rw [hlen, hl]
    simp
  · intro k
    have hcomp := buildCount_fst_append env (ps.take k) (ps.drop k) (NewBatch cl)
    rw [List.take_append_drop] at hcomp
    obtain ⟨t, ht⟩ := buildCount_map_node env (ps.drop k)
      (buildCount env (NewBatch cl) (ps.take k)).1
    refine ⟨t, ?_⟩
    rw [hcomp, ht]

/-- C1: for every batch built by a sequence of successful `Put` calls,
when every node group completes without a group-level error (connection
acquired, flush succeeds, every read returns the reply `f g j` for the
j-th command of group `g`), `RunBatch` returns a reply list whose length
is the number of `Put` calls and whose i-th element is the reply of the
i-th `Put` call: the element is obtained by walking the index in
submission order and popping the head of the named group's queue, and the
popped slot is exactly the one the i-th `Put` enqueued (same command and
arguments). -/
theorem runBatch_preserves_submission_order (env : Env) (cl : Cluster)
    (ps : List (String × List Arg)) (f : Nat → Nat → Reply)
    (hok : AllOk env (NewBatch cl) ps) :
    ∃ r, RunBatch (fun g => ConnScript.acquired none (fun j => .ok (f g j)))
        (buildAll env (NewBatch cl) ps) = some (.ok r) ∧
      r.length = ps.length ∧
      ∀ i p, ps[i]? = some p → ∃ g c,
        (buildAll env (NewBatch cl) ps).index[i]? = some g ∧
        slotOf (buildAll env (NewBatch cl) ps) i = some c ∧
        c.cmd = p.1 ∧ c.args = p.2 ∧
        r[i]? = some (some (f g (cnt g ((buildAll env (NewBatch cl) ps).index.take i)))) := by
  have hinv := inv_buildAll env ps (NewBatch cl) [] (batchInv_NewBatch cl) hok
  rw [List.nil_append] at hinv
  obtain ⟨hlen, hrange, hcount, herr, hnodes, hslot⟩ := hinv
  have hexec : ∀ (g : Nat) (nb : NodeBatch), (buildAll env (NewBatch cl) ps).batches[g]? = some nb →
      (execGroups (fun g => ConnScript.acquired none (fun j => .ok (f g j))) 0
        (buildAll env (NewBatch cl) ps).batches)[g]? =
      some ({ nb with cmds := fillFrom (f g) 0 nb.cmds } : NodeBatch) := by
    intro g nb hnb
    rw [execGroups_getElem, hnb]
    simp only [Option.map_some', Nat.zero_add]
    rw [doBatch_allOk]
  have hgood : ∀ g ∈ (buildAll env (NewBatch cl) ps).index, ∃ nb,
      (execGroups (fun g => ConnScript.acquired none (fun j => .ok (f g j))) 0
        (buildAll env (NewBatch cl) ps).batches)[g]? = some nb ∧ nb.err = none ∧
      cnt g (buildAll env (NewBatch cl) ps).index ≤ nb.cmds.length := by
    intro g hg
    have hgr := hrange g hg
    obtain ⟨nb, hnb⟩ : ∃ nb, (buildAll env (NewBatch cl) ps).batches[g]? = some nb :=
      ⟨(buildAll env (NewBatch cl) ps).batches[g], List.getElem?_eq_getElem hgr⟩
    refine ⟨{ nb with cmds := fillFrom (f g) 0 nb.cmds }, hexec g nb hnb, ?_, ?_⟩
    · exact herr nb (List.mem_iff_getElem?.mpr ⟨g, hnb⟩)
    · show cnt g (buildAll env (NewBatch cl) ps).index ≤ (fillFrom (f g) 0 nb.cmds).length
      rw [fillFrom_length]
      exact Nat.le_of_eq (hcount g nb hnb).symm
  obtain ⟨r, hr, hrl, hri⟩ := runLoop_ok_spec (buildAll env (NewBatch cl) ps).index
    (execGroups (fun g => ConnScript.acquired none (fun j => .ok (f g j))) 0
      (buildAll env (NewBatch cl) ps).batches) hgood
  refine ⟨r, hr, by rw [hrl, hlen], ?_⟩
  intro i p hp
  obtain ⟨g, c, hg, hs, hcmd, hargs⟩ := hslot i p hp
  obtain ⟨nbf, cf, hnbf, hcf, hrf⟩ := hri i g hg
  have hgr : g < (buildAll env (NewBatch cl) ps).batches.length :=
    hrange g (List.mem_iff_getElem?.mpr ⟨i, hg⟩)
  obtain ⟨nb, hnb⟩ : ∃ nb, (buildAll env (NewBatch cl) ps).batches[g]? = some nb :=
    ⟨(buildAll env (NewBatch cl) ps).batches[g], List.getElem?_eq_getElem hgr⟩
  rw [hexec g nb hnb] at hnbf
  obtain rfl : { nb with cmds := fillFrom (f g) 0 nb.cmds } = nbf := Option.some.inj hnbf
  rw [show ({ nb with cmds := fillFrom (f g) 0 nb.cmds } : NodeBatch).cmds =
    fillFrom (f g) 0 nb.cmds from rfl, fillFrom_getElem] at hcf
  rw [slotOf_eq _ i g nb hg hnb] at hs
  rw [hs] at hcf
  simp only [Option.map_some', Nat.zero_add] at hcf
  have hcc := Option.some.inj hcf
  refine ⟨g, c, hg, by rw [slotOf_eq _ i g nb hg hnb]; exact hs, hcmd, hargs, ?_⟩
  rw [hrf, ← hcc]

theorem runBatch_preserves_submission_order_witness :
    ∃ r, RunBatch (fun g => ConnScript.acquired none (fun j => .ok (fW g j)))
        (buildAll envW (NewBatch clW) psW) = some (.ok r) ∧
      r.length = psW.length ∧
      ∀ i p, psW[i]? = some p → ∃ g c,
        (buildAll envW (NewBatch clW) psW).index[i]? = some g ∧
        slotOf (buildAll envW (NewBatch clW) psW) i = some c ∧
        c.cmd = p.1 ∧ c.args = p.2 ∧
        r[i]? = some (some (fW g (cnt g ((buildAll envW (NewBatch clW) psW).index.take i)))) :=
  runBatch_preserves_submission_order envW clW psW fW ⟨rfl, rfl, rfl, rfl, rfl, trivial⟩
